import Mathlib

/-!
Verification development for the `epub2text` EPUB parser
(`epub2text/parser.py`).

Python strings are modelled as lists of characters (`Str`); Python's
slicing, strip, lower/upper, split and find operations are re-implemented
below by structural recursion so that every definition evaluates inside
the kernel.  Python dictionaries keyed by strings are modelled as
association lists with `List.lookup`.

External collaborators of the core (the BeautifulSoup structural parser,
the markup cleaner `clean_text`/`calculate_text_length` from
`epub2text/cleaner.py`, and `urllib.parse.unquote`) are taken as explicit
function parameters; everything else follows the control flow of
`parser.py` statement by statement.
-/

/-- A Python string: a sequence of characters. -/
abbrev Str := List Char

/-- Characters counted as whitespace by Python's `str.strip` and by the
regular-expression class used in `parser.py` (ASCII subset). -/
def isPyWs (c : Char) : Bool :=
  c = ' ' || c = '\t' || c = '\n' || c = '\r' ||
  c = Char.ofNat 11 || c = Char.ofNat 12

/-- Python `s.lstrip()`. -/
def trimLeftC (s : Str) : Str := s.dropWhile isPyWs

/-- Python `s.rstrip()`. -/
def trimRightC (s : Str) : Str := (s.reverse.dropWhile isPyWs).reverse

/-- Python `s.strip()`. -/
def trimC (s : Str) : Str := trimRightC (trimLeftC s)

/-- Python `s.upper()`. -/
def toUpperC (s : Str) : Str := s.map Char.toUpper

/-- Python `s.lower()`. -/
def toLowerC (s : Str) : Str := s.map Char.toLower

/-- Python `s.startswith(pat)`. -/
def startsWithC : Str → Str → Bool
  | _, [] => true
  | [], _ :: _ => false
  | c :: s, p :: ps => c = p && startsWithC s ps

/-- Python `pat in s` (substring containment). -/
def containsSubC : Str → Str → Bool
  | s, pat =>
    if startsWithC s pat then true
    else
      match s with
      | [] => false
      | _ :: t => containsSubC t pat

/-- Auxiliary scanner for `findSubC`, carrying the current index. -/
def findSubAux (pat : Str) : Str → Nat → Option Nat
  | [], i => if startsWithC [] pat then some i else none
  | s@(_ :: t), i => if startsWithC s pat then some i else findSubAux pat t (i + 1)

/-- Python `s.find(pat)`: index of the leftmost occurrence, `none` for `-1`. -/
def findSubC (s pat : Str) : Option Nat := findSubAux pat s 0

/-- Python `s.split(sep)` for a one-character separator. -/
def splitOnChar (c : Char) : Str → List Str
  | [] => [[]]
  | x :: xs =>
    let r := splitOnChar c xs
    if x = c then [] :: r
    else
      match r with
      | [] => [[x]]
      | h :: t => (x :: h) :: t

/-- Python `s.split(c, 1)`: the part before the first occurrence of `c`
and, when `c` occurs, the remainder after it. -/
def pySplit1 (c : Char) : Str → Str × Option Str
  | [] => ([], none)
  | x :: xs =>
    if x = c then ([], some xs)
    else
      let r := pySplit1 c xs
      (x :: r.1, r.2)

/-- Python `sep.join(parts)`. -/
def joinSep (sep : Str) : List Str → Str
  | [] => []
  | [p] => p
  | p :: ps => p ++ sep ++ joinSep sep ps

/-- Auxiliary scanner for `rfindCharBefore`. -/
def rfindAux (c : Char) : Str → Nat → Nat → Option Nat → Option Nat
  | [], _, _, best => best
  | x :: xs, i, bound, best =>
    if bound ≤ i then best
    else rfindAux c xs (i + 1) bound (if x = c then some i else best)

/-- Python `s.rfind(c, 0, bound)`: rightmost index `< bound` holding `c`,
`none` for `-1`. -/
def rfindCharBefore (c : Char) (s : Str) (bound : Nat) : Option Nat :=
  rfindAux c s 0 bound none

/-- Python `d.get(k, "")` on a string-valued dictionary modelled as an
association list. -/
def dictGet (d : List (Str × Str)) (k : Str) : Str := (List.lookup k d).getD []

/-- Python `d.get(k, 0)` on an integer-valued dictionary. -/
def dictGetNat (d : List (Str × Nat)) (k : Str) : Nat := (List.lookup k d).getD 0

/-- Decimal digit character. -/
def digitChar (n : Nat) : Char := Char.ofNat (48 + n)

/-- Fuel-driven decimal expansion (the fuel is always sufficient when
called through `natToChars`). -/
def natDigitsAux : Nat → Nat → Str
  | 0, _ => []
  | fuel + 1, n =>
    if n < 10 then [digitChar n]
    else natDigitsAux fuel (n / 10) ++ [digitChar (n % 10)]

/-- Python `str(n)` for a natural number. -/
def natToChars (n : Nat) : Str := natDigitsAux (n + 1) n

/-- Source of a page, `models.py`. Modelled from the spec: `Page.source`
is `REAL` (here `epubPageList`) only for a parsed native page-list,
otherwise `SYNTHETIC` (§3). -/
inductive PageSource where
  | synthetic
  | epubPageList
deriving DecidableEq

/-- Chapter record, `models.py`. Modelled from the spec (§3) and the
constructor calls in `parser.py`: id, title, text, char_count,
parent_id (nullable), level. -/
structure Chapter where
  id : Str
  title : Str
  text : Str
  char_count : Nat
  parent_id : Option Str
  level : Nat
deriving DecidableEq

/-- Page record, `models.py`. Modelled from the spec (§3) and the
constructor calls in `parser.py`. -/
structure Page where
  page_number : Str
  text : Str
  char_count : Nat
  source : PageSource
  chapter_id : Option Str
  chapter_title : Option Str
deriving DecidableEq

/-- Python `list.index` wrapped in try/except, `_get_spine_index`:
first index of `x` in `l`, or `none`. -/
def firstIndexOf (l : List Str) (x : Str) : Option Nat :=
  match l with
  | [] => none
  | y :: ys =>
    if y = x then some 0
    else (firstIndexOf ys x).map (· + 1)

/-- Embedding of `EPUBParser._slice_spine_html`: slice raw markup across
spine documents between two positions.  `dc` models `self.doc_content`. -/
def sliceSpineHtml (dc : List (Str × Str)) (currentDoc : Str) (currentPos : Nat)
    (nextDoc : Option Str) (nextPos : Option Nat) (spineDocs : List Str)
    (allowWraparound : Bool) : Str :=
  let currentDocHtml := dictGet dc currentDoc
  if currentDocHtml = [] then []
  else
    match nextDoc with
    | none =>
      let s := currentDocHtml.drop currentPos
      match firstIndexOf spineDocs currentDoc with
      | none => s
      | some idxCurrent =>
        s ++ ((spineDocs.drop (idxCurrent + 1)).map (dictGet dc)).flatten
    | some nd =>
      if currentDoc = nd then
        match nextPos with
        | none => currentDocHtml.drop currentPos
        | some np => (currentDocHtml.drop currentPos).take (np - currentPos)
      else
        let s := currentDocHtml.drop currentPos
        match firstIndexOf spineDocs currentDoc, firstIndexOf spineDocs nd with
        | some idxCurrent, some idxNext =>
          let docsBetween :=
            if idxCurrent < idxNext then
              (spineDocs.drop (idxCurrent + 1)).take (idxNext - (idxCurrent + 1))
            else if allowWraparound && idxNext < idxCurrent then
              spineDocs.drop (idxCurrent + 1) ++ spineDocs.take idxNext
            else []
          s ++ (docsBetween.map (dictGet dc)).flatten ++ (dictGet dc nd).take (nextPos.getD 0)
        | _, _ => s


/-- A double or single quote, the character class used by the id/name
attribute pattern in `_find_position_robust`. -/
def isQuoteChar (c : Char) : Bool := c = Char.ofNat 34 || c = Char.ofNat 39

/-- Match `pat` case-insensitively as a literal at the head of `s`,
returning the rest of `s` on success. -/
def matchCIAfter : Str → Str → Option Str
  | [], s => some s
  | _ :: _, [] => none
  | p :: ps, c :: cs => if c.toLower = p.toLower then matchCIAfter ps cs else none

/-- Match the tail `\s*=\s*["']frag["']` of the id/name attribute
pattern at the head of `s`. -/
def attrValTail (frag : Str) (s : Str) : Bool :=
  match s.dropWhile isPyWs with
  | '=' :: s2 =>
    match s2.dropWhile isPyWs with
    | q1 :: s3 =>
      isQuoteChar q1 &&
        (match matchCIAfter frag s3 with
         | some (q2 :: _) => isQuoteChar q2
         | _ => false)
    | [] => false
  | _ => false

/-- Match `(?:id|name)\s*=\s*["']frag["']` at the head of `s`. -/
def keywordAttrTail (frag : Str) (s : Str) : Bool :=
  (match matchCIAfter "id".data s with
   | some r => attrValTail frag r
   | none => false) ||
  (match matchCIAfter "name".data s with
   | some r => attrValTail frag r
   | none => false)

/-- After an opening `<`, scan over `[^>]+` and try the keyword/attribute
tail at every split point (regex backtracking made explicit). -/
def scanTagInner (frag : Str) : Str → Bool
  | [] => false
  | c :: rest =>
    if c = '>' then false
    else keywordAttrTail frag rest || scanTagInner frag rest

/-- Whether the pattern `<[^>]+(?:id|name)\s*=\s*["']frag["']`
(compiled with `re.IGNORECASE` in `_find_position_robust`) matches at the
head of `s`. -/
def tier2MatchAt (frag : Str) : Str → Bool
  | '<' :: rest => scanTagInner frag rest
  | _ => false

/-- Scanner for `tier2Find`, carrying the current index. -/
def tier2FindAux (frag : Str) : Str → Nat → Option Nat
  | [], _ => none
  | s@(_ :: rest), i =>
    if tier2MatchAt frag s then some i else tier2FindAux frag rest (i + 1)

/-- Start index of the leftmost match of the id/name attribute pattern
(`re.search` of tier 2 of `_find_position_robust`). -/
def tier2Find (html frag : Str) : Option Nat := tier2FindAux frag html 0

/-- Python literal `kw="frag"`, the needle of the plain-substring tier. -/
def attrNeedle (kw frag : Str) : Str :=
  kw ++ '=' :: Char.ofNat 34 :: (frag ++ [Char.ofNat 34])

/-- Tier 1 of `_find_position_robust`: the BeautifulSoup lookup (an
external collaborator, abstracted as `soupFind`, which returns the
serialized tag `str(target_element)` of the element carrying the id, or
`none` on failure/exception), followed by the bounded substring search
`html_content.find(tag_str[:200])`. -/
def tier1Result (soupFind : Str → Str → Option Str) (html frag : Str) : Option Nat :=
  match soupFind html frag with
  | some tagStr => findSubC html (tagStr.take 200)
  | none => none

/-- Tier 3 of `_find_position_robust`: plain searches for `id="frag"` and
`name="frag"`, taking the earliest hit and walking back to the nearest
`<`; `none` when both searches fail. -/
def tier3Result (html frag : Str) : Option Nat :=
  let idPos := findSubC html (attrNeedle "id".data frag)
  let namePos := findSubC html (attrNeedle "name".data frag)
  let pos :=
    match idPos, namePos with
    | some a, some b => some (min a b)
    | some a, none => some a
    | none, some b => some b
    | none, none => none
  match pos with
  | some p =>
    match rfindCharBefore '<' html p with
    | some tagStart => some tagStart
    | none => some 0
  | none => none

/-- Embedding of `EPUBParser._find_position_robust`: find the character
position of a fragment id in a cached document, degrading to 0 through
three tiers and never raising. -/
def findPositionRobust (docContent : List (Str × Str))
    (soupFind : Str → Str → Option Str) (docHref : Str)
    (fragmentId : Option Str) : Nat :=
  match List.lookup docHref docContent with
  | none => 0
  | some htmlContent =>
    match fragmentId with
    | none => 0
    | some frag =>
      if frag = [] then 0
      else
        match tier1Result soupFind htmlContent frag with
        | some pos => pos
        | none =>
          match tier2Find htmlContent frag with
          | some pos => pos
          | none =>
            match tier3Result htmlContent frag with
            | some pos => pos
            | none => 0

/-- Character class `[\s:\-\.,\u2013\u2014]` of the title/separator
pattern in `_remove_duplicate_title_line`. -/
def isTitleSep (c : Char) : Bool :=
  isPyWs c || c = ':' || c = '-' || c = '.' || c = ',' ||
  c = Char.ofNat 8211 || c = Char.ofNat 8212

/-- Semantics of `re.match(rf"^{title}[\s:\-\.,\u2013\u2014]+(.+)$", first_line,
re.IGNORECASE)`: the title matched case-insensitively at the start, then a
greedy non-empty separator run that must leave at least one character for
the capture group. Returns the captured remainder. -/
def sepRemainder (titleClean firstLine : Str) : Option Str :=
  if startsWithC (toLowerC firstLine) (toLowerC titleClean) then
    let rest := firstLine.drop titleClean.length
    let k := (rest.takeWhile isTitleSep).length
    if k = 0 then none
    else if k < rest.length then some (rest.drop k)
    else if 2 ≤ k then some (rest.drop (k - 1))
    else none
  else none

/-- Python `c.isascii() and (c.islower() or c.isdigit())`: the characters
kept by `re.sub(r"[^a-z0-9]+", "", s)`. -/
def isAsciiAlnumLower (c : Char) : Bool :=
  ('a' ≤ c && c ≤ 'z') || ('0' ≤ c && c ≤ '9')

/-- Python `s.endswith(tuple cs)` for one-character alternatives. -/
def endsWithAnyC (s : Str) (cs : List Char) : Bool :=
  match s.getLast? with
  | some c => cs.contains c
  | none => false

/-- The `heading_prefixes` tuple of `_remove_duplicate_title_line`. -/
def headingWords : List Str :=
  ["chapter".data, "part".data, "book".data, "section".data, "act".data]

/-- Embedding of `EPUBParser._remove_duplicate_title_line`: remove the
first line (or first-line prefix) when it duplicates the chapter title,
through the six tiers of the Python implementation. -/
def removeDuplicateTitleLine (text title : Str) : Str :=
  if text = [] || title = [] then text
  else
    let sp := pySplit1 '\n' text
    let firstLine := trimC sp.1
    let titleClean := trimC title
    let restOrEmpty : Str := match sp.2 with | some r => r | none => []
    let joinRemainder : Str → Str := fun remainder =>
      let r := trimLeftC remainder
      match sp.2 with
      | some rest => if r ≠ [] then r ++ '\n' :: rest else rest
      | none => r
    if titleClean = [] then text
    else if firstLine = titleClean then restOrEmpty
    else if toLowerC firstLine = toLowerC titleClean then restOrEmpty
    else if startsWithC firstLine (titleClean ++ [' ']) then
      joinRemainder (firstLine.drop titleClean.length)
    else if startsWithC (toLowerC firstLine) (toLowerC titleClean ++ [' ']) then
      joinRemainder (firstLine.drop titleClean.length)
    else
      match sepRemainder titleClean firstLine with
      | some remainder => joinRemainder remainder
      | none =>
        let normalizedTitle := (toLowerC titleClean).filter isAsciiAlnumLower
        let normalizedFirst := (toLowerC firstLine).filter isAsciiAlnumLower
        if normalizedTitle ≠ [] && normalizedFirst ≠ [] then
          if normalizedFirst = normalizedTitle then restOrEmpty
          else
            let isHeadingLike :=
              decide (firstLine.length ≤ 120) &&
              !(endsWithAnyC (trimRightC firstLine) ['.', '!', '?'])
            if isHeadingLike && containsSubC normalizedFirst normalizedTitle then
              if 3 ≤ normalizedTitle.length then restOrEmpty
              else if headingWords.any (fun w => startsWithC (toLowerC firstLine) w) then
                restOrEmpty
              else text
            else text
        else text


/-- The `front_matter_keywords` set, duplicated verbatim in
`_is_toc_or_front_matter` and `extract_pages`. -/
def frontMatterKeywords : List Str :=
  ["INTRODUCTION".data, "TABLE OF CONTENTS".data, "CONTENTS".data, "TOC".data,
   "ACKNOWLEDGEMENTS".data, "ACKNOWLEDGMENTS".data, "FOREWORD".data, "PREFACE".data]

/-- Condition `page.chapter_title and page.chapter_title.upper() in
front_matter_keywords` (Python truthiness of the optional title). -/
def chapterTitleIsFrontMatter (page : Page) : Bool :=
  match page.chapter_title with
  | some t => t ≠ [] && frontMatterKeywords.contains (toUpperC t)
  | none => false

/-- Embedding of `EPUBParser._get_upper_titles_for_toc`: the metadata
title plus every chapter title, upper-cased (the Python set is modelled
as a list; only membership is ever used). -/
def upperTitlesForToc (metaTitle : Option Str) (chapters : List Chapter) : List Str :=
  (match metaTitle with
   | some t => if t ≠ [] then [toUpperC t] else []
   | none => []) ++
  chapters.filterMap (fun ch => if ch.title ≠ [] then some (toUpperC ch.title) else none)

/-- Matching-line count of `_is_toc_or_front_matter`: lines of the
upper-cased first 2000 characters whose stripped form equals a known
title. -/
def countTitleLines (searchTerms : List Str) (text : Str) : Nat :=
  let textUpper := toUpperC (text.take 2000)
  let lines := splitOnChar '\n' textUpper
  lines.countP (fun line => searchTerms.contains (trimC line))

/-- Embedding of `EPUBParser._is_toc_or_front_matter`: a page is flagged
when its chapter title is a front-matter keyword, or when more than 3
scanned lines equal a known chapter title. -/
def isTocOrFrontMatter (searchTerms : List Str) (page : Page) : Bool :=
  if page.text = [] then false
  else if chapterTitleIsFrontMatter page then true
  else if searchTerms = [] then false
  else decide (3 < countTitleLines searchTerms page.text)

/-- One step of the TOC-entry scan of `_strip_toc_from_page`: a line that
is exactly a known title (exact entry) or starts with a known title plus
a space (partial entry). -/
def tocEntryFor (titles : List Str) (i : Nat) (line : Str) : Option (Nat × Str × Bool) :=
  let ls := trimC line
  let lu := toUpperC ls
  if titles.contains lu && decide (lu.length < 30) then some (i, ls, true)
  else if titles.any (fun t => startsWithC lu (t ++ [' ']) && decide (t.length < 30)) then
    some (i, ls, false)
  else none

/-- The `toc_entries` list of `_strip_toc_from_page`. -/
def tocEntriesOf (titles : List Str) (lines : List Str) : List (Nat × Str × Bool) :=
  lines.enum.filterMap (fun p => tocEntryFor titles p.1 p.2)

/-- The trailing loop of `_strip_toc_from_page` that skips leading blank
lines of `after_toc` and keeps everything from the first non-blank one. -/
def dropLeadingBlankLines : List Str → List Str
  | [] => []
  | l :: ls => if trimC l ≠ [] then l :: ls else dropLeadingBlankLines ls

/-- Embedding of `EPUBParser._strip_toc_from_page`: remove a dense run of
at least 5 chapter-title lines, keeping any trailing text of the final
partial entry.  The Python set of titles is modelled as a list; where
Python iterates over the set to pick the matching title, the list order
stands in for the unspecified set order. -/
def stripTocFromPage (titles : List Str) (pageText : Str) : Str :=
  if pageText = [] then pageText
  else if titles = [] then pageText
  else
    let lines := splitOnChar '\n' pageText
    let tocEntries := tocEntriesOf titles lines
    if 5 ≤ tocEntries.length then
      match tocEntries.head?, tocEntries.getLast? with
      | some first, some last =>
        if last.1 - first.1 < 3 * tocEntries.length then
          let beforeToc := lines.take first.1
          let afterToc :=
            if last.2.2 then lines.drop (last.1 + 1)
            else
              match titles.find? (fun t => startsWithC (toUpperC last.2.1) (t ++ [' '])) with
              | some t => trimLeftC (last.2.1.drop t.length) :: lines.drop (last.1 + 1)
              | none => lines.drop (last.1 + 1)
          joinSep ['\n'] (beforeToc ++ dropLeadingBlankLines afterToc)
        else pageText
      | _, _ => pageText
    else pageText

/-- The temporary `Page` that `extract_chapters` builds for each chapter
to reuse the TOC detection logic. -/
def pageForChapterCheck (ch : Chapter) : Page :=
  ⟨"temp".data, ch.text, ch.char_count, PageSource.synthetic, none, some ch.title⟩

/-- The combining loop of `extract_chapters`: one part per non-empty
selected chapter, with optional title header driven by the enumeration
index. -/
def extractChaptersParts (dedupe inclTitle : Bool) : Nat → List Chapter → List Str
  | _, [] => []
  | i, ch :: rest =>
    let tail := extractChaptersParts dedupe inclTitle (i + 1) rest
    if ch.text ≠ [] then
      let cleaned := if dedupe then removeDuplicateTitleLine ch.text ch.title else ch.text
      let part :=
        if i = 0 && inclTitle then ch.title ++ "\n\n".data ++ cleaned
        else if 0 < i && inclTitle then "\n\n\n\n".data ++ ch.title ++ "\n\n".data ++ cleaned
        else cleaned
      part :: tail
    else tail

/-- Embedding of `EPUBParser.extract_chapters`, parametrised by the
chapter list produced by `get_chapters` and by the known-title list used
by the TOC check. -/
def extractChapters (chapters : List Chapter) (chapterIds : Option (List Str))
    (dedupe skipToc inclTitle : Bool) (searchTerms : List Str) : Str :=
  let selected :=
    match chapterIds with
    | none => chapters
    | some ids => chapters.filter (fun ch => ids.contains ch.id)
  let selected2 :=
    if skipToc then
      selected.filter (fun ch => !isTocOrFrontMatter searchTerms (pageForChapterCheck ch))
    else selected
  (extractChaptersParts dedupe inclTitle 0 selected2).flatten

/-- The `skip_toc` filtering of one page inside `extract_pages`:
`none` models `continue`, `some page_text` the (possibly TOC-stripped)
text that survives. -/
def pageTextAfterToc (skipToc : Bool) (searchTerms : List Str) (page : Page) : Option Str :=
  if !skipToc then some page.text
  else if chapterTitleIsFrontMatter page then none
  else
    let afterStrip :=
      if isTocOrFrontMatter searchTerms page then
        let stripped := stripTocFromPage searchTerms page.text
        if trimC stripped = [] then none else some stripped
      else some (stripTocFromPage searchTerms page.text)
    match afterStrip with
    | none => none
    | some pt => if trimC pt = [] then none else some pt

/-- Chapter header emitted by `extract_pages` when the chapter changes:
four leading line breaks unless it is the first part. -/
def chapterHeader (partsNonEmpty : Bool) (t : Str) : Str :=
  if partsNonEmpty then "\n\n\n\n".data ++ t ++ "\n\n".data
  else t ++ "\n\n".data

/-- The accumulation loop of `extract_pages` over the selected pages,
carrying the parts emitted so far and the current chapter title. -/
def extractPagesLoop (dedupe skipToc : Bool) (searchTerms : List Str) :
    List Page → List Str → Option Str → List Str
  | [], parts, _ => parts
  | page :: rest, parts, currentChapter =>
    if page.text = [] then extractPagesLoop dedupe skipToc searchTerms rest parts currentChapter
    else
      match pageTextAfterToc skipToc searchTerms page with
      | none => extractPagesLoop dedupe skipToc searchTerms rest parts currentChapter
      | some pageText =>
        let step :=
          match page.chapter_title with
          | some t =>
            if t ≠ [] && decide (currentChapter ≠ some t) then
              (parts ++ [chapterHeader (parts ≠ []) t], some t)
            else (parts, currentChapter)
          | none => (parts, currentChapter)
        let cleaned :=
          match page.chapter_title with
          | some t =>
            if dedupe && t ≠ [] then removeDuplicateTitleLine pageText t else pageText
          | none => pageText
        extractPagesLoop dedupe skipToc searchTerms rest
          (step.1 ++ ["<<PAGE: ".data ++ page.page_number ++ ">>\n\n".data ++ cleaned])
          step.2

/-- Python `pages_by_number[num]` built from `{p.page_number: p}`: the
last page carrying the given number, `none` when the number is absent. -/
def lastPageWithNumber (pages : List Page) (num : Str) : Option Page :=
  (pages.filter (fun p => p.page_number == num)).getLast?

/-- Embedding of `EPUBParser.extract_pages`, parametrised by the page
list produced by `get_pages` and by the known-title list used by the TOC
heuristics. -/
def extractPages (pages : List Page) (pageNumbers : Option (List Str))
    (dedupe skipToc : Bool) (searchTerms : List Str) : Str :=
  let selected :=
    match pageNumbers with
    | none => pages
    | some nums => nums.filterMap (lastPageWithNumber pages)
  joinSep "\n\n".data (extractPagesLoop dedupe skipToc searchTerms selected [] none)


/-- One ordered navigation entry of `_process_epub_content_nav`
(the dictionaries appended to `ordered_nav_entries`). -/
structure OrderedNavEntry where
  src : Str
  title : Str
  doc_href : Str
  position : Nat
  doc_order : Nat
deriving DecidableEq

/-- The markup-to-stored-text step of the slicing loop in
`_process_epub_content_nav`: when the slice is non-blank, the cleaned
text (the BeautifulSoup transformations plus `clean_text(...).strip()`
are the abstracted collaborator `clean`), stored only when non-empty. -/
def textOfHtml (clean : Str → Str) (h : Str) : Str :=
  if trimC h ≠ [] then
    let t := clean h
    if t ≠ [] then t else []
  else []

/-- The raw cross-document slice computed for entry `cur` (with successor
`nxt`) by the loop of `_process_epub_content_nav`; chapter slicing passes
`allow_wraparound=True`. -/
def entrySliceRaw (dc : List (Str × Str)) (spine : List Str)
    (cur : OrderedNavEntry) (nxt : Option OrderedNavEntry) : Str :=
  sliceSpineHtml dc cur.doc_href cur.position (nxt.map (·.doc_href))
    (nxt.map (·.position)) spine true

/-- The slice actually used for an entry: the raw slice, or the whole
cached document when the raw slice is blank and the document is not
(`# Fallback: if empty, use whole file`). -/
def entrySliceWithFallback (dc : List (Str × Str)) (spine : List Str)
    (cur : OrderedNavEntry) (nxt : Option OrderedNavEntry) : Str :=
  let currentDocHtml := dictGet dc cur.doc_href
  let s := entrySliceRaw dc spine cur nxt
  if trimC s = [] && currentDocHtml ≠ [] then currentDocHtml else s

/-- The `content_texts` assignments produced by the slicing loop of
`_process_epub_content_nav`, in loop order: one `(src, text)` pair per
sorted navigation entry. -/
def navEntryTexts (clean : Str → Str) (dc : List (Str × Str)) (spine : List Str)
    (entries : List OrderedNavEntry) : List (Str × Str) :=
  (List.range entries.length).map (fun i =>
    match entries.get? i with
    | some cur =>
      (cur.src, textOfHtml clean (entrySliceWithFallback dc spine cur (entries.get? (i + 1))))
    | none => ([], []))

/-- A node of `processed_nav_structure`: the dictionaries built by
`_parse_ncx_navpoint` / `_parse_html_nav_li` with keys `src`, `title`,
`children`. -/
inductive NavNode where
  | node (src : Option Str) (title : Str) (children : List NavNode)

/-- Python `chapter_id = src if src else f"chapter_{len(chapters)}"`
(the empty `src` string is falsy). -/
def navChapterId (src : Option Str) (numChapters : Nat) : Str :=
  match src with
  | some s => if s = [] then "chapter_".data ++ natToChars numChapters else s
  | none => "chapter_".data ++ natToChars numChapters

/-- Python `text = self.content_texts.get(src, "") if src else ""` when
`include_text`, else `""`. -/
def navChapterText (includeText : Bool) (contentTexts : List (Str × Str))
    (src : Option Str) : Str :=
  if includeText then
    match src with
    | some s => if s = [] then [] else dictGet contentTexts s
    | none => []
  else []

/-- Python `char_count = self.content_lengths.get(src, 0) if src else 0`. -/
def navChapterCount (contentLengths : List (Str × Nat)) (src : Option Str) : Nat :=
  match src with
  | some s => if s = [] then 0 else dictGetNat contentLengths s
  | none => 0

/-- Embedding of `EPUBParser._build_chapters_from_nav`: recursively turn
the navigation structure into a flat chapter list, threading the
accumulated list (Python mutates `chapters` in place). -/
def buildChaptersFromNav (navStructure : List NavNode) (chapters : List Chapter)
    (parentId : Option Str) (level : Nat) (includeText : Bool)
    (contentTexts : List (Str × Str)) (contentLengths : List (Str × Nat)) : List Chapter :=
  match navStructure with
  | [] => chapters
  | NavNode.node src title children :: rest =>
    let chapterId := navChapterId src chapters.length
    let chapter : Chapter :=
      ⟨chapterId, title, navChapterText includeText contentTexts src,
        navChapterCount contentLengths src, parentId, level⟩
    let chapters1 := chapters ++ [chapter]
    let chapters2 :=
      if children.isEmpty then chapters1
      else buildChaptersFromNav children chapters1 (some chapterId) (level + 1)
        includeText contentTexts contentLengths
    buildChaptersFromNav rest chapters2 parentId level includeText contentTexts contentLengths
termination_by sizeOf navStructure
decreasing_by
  all_goals simp_wf
  all_goals omega

/-- Embedding of `EPUBParser.get_chapters` after navigation processing:
`_build_chapters_from_nav` on the processed structure with an empty
accumulator, no parent and level 1. -/
def getChapters (nav : List NavNode) (includeText : Bool)
    (contentTexts : List (Str × Str)) (contentLengths : List (Str × Nat)) : List Chapter :=
  buildChaptersFromNav nav [] none 1 includeText contentTexts contentLengths

/-- Python `s.endswith(suffix)`. -/
def endsWithC (s suffix : Str) : Bool := startsWithC s.reverse suffix.reverse

/-- Python `os.path.basename(s).lower()` (POSIX separators). -/
def basenameLower (s : Str) : Str :=
  toLowerC (((splitOnChar '/' s).getLast?).getD s)

/-- The `doc_order` dictionary of `_get_epub_page_list`: spine document
name to spine index. -/
def spinePairs (spine : List Str) : List (Str × Nat) :=
  spine.enum.map (fun p => (p.2, p.1))

/-- The `doc_order_decoded` dictionary: percent-decoded names (the
decoder `urllib.parse.unquote` is the abstracted parameter `unquote`). -/
def decodedPairs (unquote : Str → Str) (spine : List Str) : List (Str × Nat) :=
  (spinePairs spine).map (fun q => (unquote q.1, q.2))

/-- The candidate loop of `_find_doc_key`: try each candidate first in
`doc_order`, then in `doc_order_decoded`. -/
def findDocKeyAux (docOrder docOrderDecoded : List (Str × Nat)) :
    List Str → Option (Str × Nat)
  | [] => none
  | c :: cs =>
    match List.lookup c docOrder with
    | some i => some (c, i)
    | none =>
      match List.lookup c docOrderDecoded with
      | some i => some (c, i)
      | none => findDocKeyAux docOrder docOrderDecoded cs

/-- Embedding of `EPUBParser._find_doc_key`: the raw href, its decoded
form, and every dictionary key with the same lower-cased basename, tried
in order against both dictionaries. -/
def findDocKey (unquote : Str → Str) (baseHref : Str)
    (docOrder docOrderDecoded : List (Str × Nat)) : Option (Str × Nat) :=
  let candidates :=
    [baseHref, unquote baseHref] ++
      ((docOrder.map Prod.fst ++ docOrderDecoded.map Prod.fst).filter
        (fun k => basenameLower k == basenameLower baseHref))
  findDocKeyAux docOrder docOrderDecoded candidates

/-- A page entry parsed from the page-list navigation
(`{"page_number": ..., "src": ...}`). -/
structure PageEntry where
  page_number : Str
  src : Str
deriving DecidableEq

/-- A page entry after document resolution in `_get_epub_page_list`. -/
structure ResolvedPageEntry where
  page_number : Str
  src : Str
  doc_href : Str
  doc_order : Nat
  position : Nat
deriving DecidableEq

/-- The resolution step of `_get_epub_page_list`: matched entries get
their spine document, index and anchor position; unmatched entries keep
the base href with sentinel order 999999 and position 0. -/
def resolvePageEntry (dc : List (Str × Str)) (soupFind : Str → Str → Option Str)
    (unquote : Str → Str) (docOrder docOrderDecoded : List (Str × Nat))
    (e : PageEntry) : ResolvedPageEntry :=
  let bf := pySplit1 '#' e.src
  match findDocKey unquote bf.1 docOrder docOrderDecoded with
  | some ki => ⟨e.page_number, e.src, ki.1, ki.2, findPositionRobust dc soupFind ki.1 bf.2⟩
  | none => ⟨e.page_number, e.src, bf.1, 999999, 0⟩

/-- Ascending order on `(doc_order, position)` sort keys. -/
def keyLE (ka kb : Nat × Nat) : Prop :=
  ka.1 < kb.1 ∨ (ka.1 = kb.1 ∧ ka.2 ≤ kb.2)

instance keyLEDec : DecidableRel keyLE := fun a b => by
  unfold keyLE
  infer_instance

/-- Sorting by a `(Nat × Nat)` key, the model of Python's
`list.sort(key=...)` (a stable sort; for a total preorder the sorted
result is unique up to the order of key-equal elements, which no claim
relies on). -/
def sortByKey {α : Type} (k : α → Nat × Nat) (l : List α) : List α :=
  @List.insertionSort α (fun a b => keyLE (k a) (k b))
    (fun a b => keyLEDec (k a) (k b)) l

/-- Sort key of `page_entries.sort` in `_get_epub_page_list`. -/
def pageEntryKey (e : ResolvedPageEntry) : Nat × Nat := (e.doc_order, e.position)

/-- The `page_entries.sort(key=lambda x: (doc_order, position))` step. -/
def sortPageEntries (l : List ResolvedPageEntry) : List ResolvedPageEntry :=
  sortByKey pageEntryKey l

/-- The document lookup of `_build_chapter_position_map`: the first
`doc_order` key equal to the base href, ending in `/base_href`, or whose
decoded form does. -/
def chapterMapDocKey (unquote : Str → Str) (docOrder : List (Str × Nat))
    (baseHref : Str) : Option Str :=
  (docOrder.map Prod.fst).find? (fun key =>
    key == baseHref || endsWithC key ('/' :: baseHref) ||
    unquote key == baseHref || endsWithC (unquote key) ('/' :: baseHref))

/-- Sort key of `chapter_positions.sort`: `(doc_order.get(doc, 999999),
position)`. -/
def chapterPosKey (docOrder : List (Str × Nat)) (x : Str × Nat × Str × Str) : Nat × Nat :=
  ((List.lookup x.1 docOrder).getD 999999, x.2.1)

/-- Embedding of `EPUBParser._build_chapter_position_map`: resolve each
non-synthetic chapter id to a document and position, sorted by document
order then position. -/
def buildChapterPositionMap (dc : List (Str × Str)) (soupFind : Str → Str → Option Str)
    (unquote : Str → Str) (chapters : List Chapter) (docOrder : List (Str × Nat)) :
    List (Str × Nat × Str × Str) :=
  let positions := chapters.filterMap (fun ch =>
    if ch.id = [] then none
    else if startsWithC ch.id "internal:".data then none
    else
      let bf := pySplit1 '#' ch.id
      match chapterMapDocKey unquote docOrder bf.1 with
      | some key => some (key, findPositionRobust dc soupFind key bf.2, ch.id, ch.title)
      | none => none)
  sortByKey (chapterPosKey docOrder) positions

/-- The scanning loop of `_find_chapter_for_position`, carrying the best
match so far; the `elif` branch models the loop's `break`. -/
def fcpAux (docHref : Str) (position : Nat) :
    List (Str × Nat × Str × Str) → Option Str × Option Str → Option Str × Option Str
  | [], res => res
  | (d, p, cid, ctitle) :: rest, res =>
    if d = docHref && decide (p ≤ position) then
      fcpAux docHref position rest (some cid, some ctitle)
    else if d = docHref && decide (position < p) then res
    else fcpAux docHref position rest res

/-- Embedding of `EPUBParser._find_chapter_for_position`. -/
def findChapterForPosition (docHref : Str) (position : Nat)
    (chapterMap : List (Str × Nat × Str × Str)) : Option Str × Option Str :=
  fcpAux docHref position chapterMap (none, none)

/-- Embedding of `EPUBParser._extract_text_between_positions`: slice with
wraparound disallowed (page slicing) and clean; blank slices give the
empty string (`clean` abstracts the BeautifulSoup transformations plus
`clean_text(...).strip()`). -/
def extractTextBetweenPositions (clean : Str → Str) (dc : List (Str × Str))
    (spine : List Str) (cur : ResolvedPageEntry) (nxt : Option ResolvedPageEntry) : Str :=
  let s := sliceSpineHtml dc cur.doc_href cur.position (nxt.map (·.doc_href))
    (nxt.map (·.position)) spine false
  if trimC s = [] then [] else clean s

/-- The entry-resolution phase of `_get_epub_page_list` over the whole
entry list. -/
def resolvedPageEntries (dc : List (Str × Str)) (soupFind : Str → Str → Option Str)
    (unquote : Str → Str) (spine : List Str) (entries : List PageEntry) :
    List ResolvedPageEntry :=
  entries.map (resolvePageEntry dc soupFind unquote (spinePairs spine)
    (decodedPairs unquote spine))

/-- The resolved entries after the `(doc_order, position)` sort. -/
def sortedPageEntries (dc : List (Str × Str)) (soupFind : Str → Str → Option Str)
    (unquote : Str → Str) (spine : List Str) (entries : List PageEntry) :
    List ResolvedPageEntry :=
  sortPageEntries (resolvedPageEntries dc soupFind unquote spine entries)

/-- The page-construction phase of `EPUBParser._get_epub_page_list`:
resolve, sort, then build one `Page` per entry (`calcLen` abstracts
`calculate_text_length` of the cleaner collaborator, `chapters` the list
returned by `get_chapters`). -/
def pageAtIndex (clean : Str → Str) (calcLen : Str → Nat)
    (dc : List (Str × Str)) (soupFind : Str → Str → Option Str)
    (unquote : Str → Str) (spine : List Str) (chapters : List Chapter)
    (entries : List PageEntry) (i : Nat) : Page :=
  let sorted := sortedPageEntries dc soupFind unquote spine entries
  let chapterMap := buildChapterPositionMap dc soupFind unquote chapters (spinePairs spine)
  match sorted.get? i with
  | some cur =>
    let text := extractTextBetweenPositions clean dc spine cur (sorted.get? (i + 1))
    let pr := findChapterForPosition cur.doc_href cur.position chapterMap
    ⟨cur.page_number, text, calcLen text, PageSource.epubPageList, pr.1, pr.2⟩
  | none => ⟨[], [], 0, PageSource.epubPageList, none, none⟩

/-- The loop of `_get_epub_page_list` over the sorted entries, one
`Page` appended per entry. -/
def getEpubPageListPages (clean : Str → Str) (calcLen : Str → Nat)
    (dc : List (Str × Str)) (soupFind : Str → Str → Option Str)
    (unquote : Str → Str) (spine : List Str) (chapters : List Chapter)
    (entries : List PageEntry) : List Page :=
  (List.range (sortedPageEntries dc soupFind unquote spine entries).length).map
    (pageAtIndex clean calcLen dc soupFind unquote spine chapters entries)

/-- Well-formedness of a chapter list relative to a set of already-seen
chapter ids: every chapter has level at least 1 and a parent id among the
ids emitted before it. -/
def ChapterLinksOk : List Str → List Chapter → Prop
  | _, [] => True
  | seen, c :: rest =>
    (1 ≤ c.level ∧ ∀ p, c.parent_id = some p → p ∈ seen) ∧
    ChapterLinksOk (seen ++ [c.id]) rest

/-- Document cache fixture mirroring `tests/test_parser_spine_slice.py`,
restricted to two documents. -/
def dcTwoDocs : List (Str × Str) :=
  [("d1".data, "AAA111BBB".data), ("d2".data, "CCC222DDD".data)]

/-- Document cache fixture mirroring `tests/test_parser_spine_slice.py`. -/
def dcThreeDocs : List (Str × Str) :=
  [("d1".data, "AAA111BBB".data), ("d2".data, "CCC222DDD".data),
   ("d3".data, "EEE333FFF".data)]

/-- The three-document cache with the first document decoded to the empty
string (the `doc_content[href] = ""` branch taken on decode errors). -/
def dcFirstEmpty : List (Str × Str) :=
  [("d1".data, []), ("d2".data, "CCC222DDD".data), ("d3".data, "EEE333FFF".data)]

/-- Three-document spine fixture. -/
def spineThree : List Str := ["d1".data, "d2".data, "d3".data]

/-- Chapter fixtures for the TOC-detector instances. -/
def tocChaptersEx : List Chapter :=
  [⟨"c1".data, "Alpha".data, [], 0, none, 1⟩,
   ⟨"c2".data, "Beta".data, [], 0, none, 1⟩,
   ⟨"c3".data, "Gamma".data, [], 0, none, 1⟩,
   ⟨"c4".data, "Delta".data, [], 0, none, 1⟩]

/-- Known-title list derived from `tocChaptersEx` with no metadata title. -/
def tocTermsEx : List Str := upperTitlesForToc none tocChaptersEx

/-- A page whose scanned text contains exactly three known chapter
titles as standalone lines. -/
def tocPageThree : Page :=
  ⟨"5".data, "ALPHA\nBETA\nGAMMA\nOnce upon a time.".data, 0,
   PageSource.synthetic, some "x".data, some "Story".data⟩

/-- A page whose scanned text contains four known chapter titles as
standalone lines. -/
def tocPageFour : Page :=
  ⟨"6".data, "ALPHA\nBETA\nGAMMA\nDELTA\nOnce upon a time.".data, 0,
   PageSource.synthetic, some "x".data, some "Story".data⟩

/-- A page with a chapter title, used to evaluate `extract_pages`. -/
def markerPageEx : Page :=
  ⟨"1".data, "Hello world".data, 11, PageSource.synthetic,
   some "c1".data, some "ONE".data⟩

/-- A navigation entry whose anchor position lies at the end of its
document, so the slice up to the next anchor is empty. -/
def navEntryEx : OrderedNavEntry :=
  ⟨"a.html#x".data, "T".data, "a.html".data, 9, 0⟩

/-- One-document cache for the fallback instance. -/
def dcOneDoc : List (Str × Str) := [("a.html".data, "<p>Hi</p>".data)]

/-- Navigation tree fixture: one root with one child. -/
def navTreeEx : List NavNode :=
  [NavNode.node (some ['a']) ['A']
    [NavNode.node (some ['a', '#', 's', '1']) ['B'] []]]

/-- Page-list entry fixture: the first entry's document is not in the
spine, the second resolves to the only spine document. -/
def pageEntriesEx : List PageEntry :=
  [⟨"9".data, "zzz.html#p9".data⟩, ⟨"1".data, "a.html#p1".data⟩]

/-- C1 (counterexample): with wraparound disallowed and the starting
document strictly after the ending document in spine order, the slicer
does not return the empty string: on the two-document fixture it returns
`"DDD" ++ "AAA"`. -/
theorem slice_backward_counterexample :
    sliceSpineHtml dcTwoDocs "d2".data 6 (some "d1".data) (some 3)
      ["d1".data, "d2".data] false ≠ [] := by decide

/-- C1 (amended): when the starting document comes strictly after the
ending document in spine order and wraparound is disallowed, the slicer
skips every intervening document and returns the tail of the starting
document from the start position followed by the head of the ending
document up to the end position, provided the starting document's cached
markup is non-empty (otherwise it returns the empty string). -/
theorem slice_backward_no_wraparound_tail_head
    (dc : List (Str × Str)) (spine : List Str) (dA dB : Str) (pA pB iA iB : Nat)
    (hne : dictGet dc dA ≠ []) (hdiff : dA ≠ dB)
    (hiA : firstIndexOf spine dA = some iA) (hiB : firstIndexOf spine dB = some iB)
    (horder : iB < iA) :
    sliceSpineHtml dc dA pA (some dB) (some pB) spine false
      = (dictGet dc dA).drop pA ++ (dictGet dc dB).take pB := by
  have hnotlt : ¬ iA < iB := by omega
  unfold sliceSpineHtml
  simp [hne, hdiff, hiA, hiB, hnotlt]

/-- C1 (witness for the amended claim): the concrete backward slice on
the two-document fixture. -/
theorem slice_backward_no_wraparound_tail_head_witness :
    sliceSpineHtml dcTwoDocs "d2".data 6 (some "d1".data) (some 3)
      ["d1".data, "d2".data] false = "DDDAAA".data := by
  have h := slice_backward_no_wraparound_tail_head dcTwoDocs
    ["d1".data, "d2".data] "d2".data "d1".data 6 3 1 0
    (by decide) (by decide) (by decide) (by decide) (by decide)
  rw [h]
  decide

/-- C4 (counterexample): when the starting document's cached markup is
empty (as after a decode error), the forward cross-document slice is the
empty string instead of the intervening documents plus the head of the
ending document. -/
theorem slice_forward_counterexample :
    sliceSpineHtml dcFirstEmpty "d1".data 0 (some "d3".data) (some 3) spineThree false = []
    ∧ sliceSpineHtml dcFirstEmpty "d1".data 0 (some "d3".data) (some 3) spineThree false
        ≠ "CCC222DDDEEE".data := by decide

/-- C4 (amended): when the starting document precedes the ending
document in spine order and the starting document's cached markup is
non-empty, the slicer returns the tail of the starting document from the
start position, every intervening spine document in full, and the head
of the ending document up to the end position. -/
theorem slice_forward_concatenation
    (dc : List (Str × Str)) (spine : List Str) (dA dB : Str) (pA pB iA iB : Nat)
    (aw : Bool)
    (hne : dictGet dc dA ≠ []) (hdiff : dA ≠ dB)
    (hiA : firstIndexOf spine dA = some iA) (hiB : firstIndexOf spine dB = some iB)
    (horder : iA < iB) :
    sliceSpineHtml dc dA pA (some dB) (some pB) spine aw
      = (dictGet dc dA).drop pA
        ++ (((spine.drop (iA + 1)).take (iB - (iA + 1))).map (dictGet dc)).flatten
        ++ (dictGet dc dB).take pB := by
  unfold sliceSpineHtml
  simp [hne, hdiff, hiA, hiB, horder]

/-- C4 (witness): the spec's concrete cross-document slice with an
intervening document, `slice("d1",6,"d3",3)` on the three-document
fixture. -/
theorem slice_forward_concatenation_witness :
    sliceSpineHtml dcThreeDocs "d1".data 6 (some "d3".data) (some 3) spineThree false
      = "BBBCCC222DDDEEE".data := by
  have h := slice_forward_concatenation dcThreeDocs spineThree
    "d1".data "d3".data 6 3 0 2 false
    (by decide) (by decide) (by decide) (by decide) (by decide)
  rw [h]
  decide

/-- C8: title deduplication on `"ONE The morning was joyless for him."`
with navigation title `"ONE"` strips the title prefix and the following
space from the first line. -/
theorem remove_duplicate_title_same_line :
    removeDuplicateTitleLine "ONE The morning was joyless for him.".data "ONE".data
      = "The morning was joyless for him.".data := by decide

/-- Helper: with no known titles, no scanned line can match. -/
theorem countTitleLines_nil (t : Str) : countTitleLines [] t = 0 := by
  unfold countTitleLines
  simp [List.countP_eq_zero]

/-- C3 (counterexample): a page with exactly three known chapter titles
as standalone lines and an ordinary chapter title is not flagged by the
detector, although the claim's threshold of at least 3 matching lines is
met. -/
theorem toc_detector_counterexample :
    tocPageThree.text ≠ [] ∧
    chapterTitleIsFrontMatter tocPageThree = false ∧
    3 ≤ countTitleLines tocTermsEx tocPageThree.text ∧
    isTocOrFrontMatter tocTermsEx tocPageThree = false := by decide

/-- C3 (amended): for a page with non-empty text, the detector flags it
exactly when its chapter title is a front-matter keyword or when strictly
more than 3 (that is, at least 4) scanned lines equal a known chapter
title. -/
theorem toc_detector_threshold (searchTerms : List Str) (page : Page)
    (h : page.text ≠ []) :
    isTocOrFrontMatter searchTerms page = true ↔
      (chapterTitleIsFrontMatter page = true ∨
        3 < countTitleLines searchTerms page.text) := by
  unfold isTocOrFrontMatter
  rw [if_neg h]
  by_cases hk : chapterTitleIsFrontMatter page
  · simp [hk]
  · by_cases ht : searchTerms = []
    · subst ht
      simp [hk, countTitleLines_nil]
    · simp [hk, ht]

/-- C3 (witness for the amended claim): the four-matching-line page is
flagged. -/
theorem toc_detector_threshold_witness :
    isTocOrFrontMatter tocTermsEx tocPageFour = true :=
  (toc_detector_threshold tocTermsEx tocPageFour (by decide)).mpr (Or.inr (by decide))

/-- C5: the position locator is a total function that returns offset 0
when there is no fragment, and returns 0 (rather than signalling an
error) when the structural tier, the id/name attribute pattern tier and
the plain substring tier all fail. -/
theorem find_position_robust_degrades
    (dc : List (Str × Str)) (soupFind : Str → Str → Option Str)
    (href : Str) (frag : Str) :
    findPositionRobust dc soupFind href none = 0 ∧
    (∀ html, List.lookup href dc = some html →
      tier1Result soupFind html frag = none →
      tier2Find html frag = none →
      tier3Result html frag = none →
      findPositionRobust dc soupFind href (some frag) = 0) := by
  constructor
  · unfold findPositionRobust
    cases List.lookup href dc <;> simp
  · intro html hl h1 h2 h3
    unfold findPositionRobust
    rw [hl]
    by_cases hf : frag = []
    · simp [hf]
    · simp [hf, h1, h2, h3]

/-- C5 (witness): a cached document with no matching anchor in any tier
yields position 0. -/
theorem find_position_robust_degrades_witness :
    findPositionRobust dcOneDoc (fun _ _ => none) "a.html".data (some "zz".data) = 0 :=
  (find_position_robust_degrades dcOneDoc (fun _ _ => none) "a.html".data "zz".data).2
    "<p>Hi</p>".data (by decide) rfl (by decide) (by decide)

/-- C2: `extract_pages` on a page with chapter title `"ONE"` emits the
bare title and the `<<PAGE: ...>>` marker, but no `<<CHAPTER: ...>>`
marker (contradicting the documented marker format, which the repository
tests and the CLI marker stripper expect). -/
theorem extract_pages_chapter_marker_missing :
    extractPages [markerPageEx] none true false []
      = "ONE\n\n\n\n<<PAGE: 1>>\n\nHello world".data ∧
    containsSubC (extractPages [markerPageEx] none true false [])
      "<<CHAPTER:".data = false ∧
    containsSubC (extractPages [markerPageEx] none true false [])
      "<<PAGE: 1>>".data = true := by decide

/-- C7: `extract_chapters` with no id filter returns exactly the text of
`extract_chapters` applied to the full list of chapter ids in order. -/
theorem extract_chapters_none_eq_all_ids
    (chapters : List Chapter) (dedupe skipToc inclTitle : Bool)
    (searchTerms : List Str) :
    extractChapters chapters none dedupe skipToc inclTitle searchTerms
      = extractChapters chapters (some (chapters.map Chapter.id))
          dedupe skipToc inclTitle searchTerms := by
  unfold extractChapters
  have hfilter : chapters.filter
      (fun ch => (chapters.map Chapter.id).contains ch.id) = chapters := by
    rw [List.filter_eq_self]
    intro a ha
    exact List.elem_eq_true_of_mem (List.mem_map_of_mem Chapter.id ha)
  simp only [hfilter]

/-- C9: when the raw slice between an entry's anchor and the next anchor
is blank but the entry's document has non-empty cached markup, the slice
actually used is the document's entire markup, and the text stored for
the entry by the slicing loop is produced from that entire markup. -/
theorem empty_slice_falls_back_to_full_document
    (clean : Str → Str) (dc : List (Str × Str)) (spine : List Str)
    (entries : List OrderedNavEntry) (i : Nat) (hi : i < entries.length)
    (hblank : trimC (entrySliceRaw dc spine (entries.get ⟨i, hi⟩)
      (entries.get? (i + 1))) = [])
    (hdoc : dictGet dc (entries.get ⟨i, hi⟩).doc_href ≠ []) :
    entrySliceWithFallback dc spine (entries.get ⟨i, hi⟩) (entries.get? (i + 1))
        = dictGet dc (entries.get ⟨i, hi⟩).doc_href ∧
    (navEntryTexts clean dc spine entries).get? i
        = some ((entries.get ⟨i, hi⟩).src,
            textOfHtml clean (dictGet dc (entries.get ⟨i, hi⟩).doc_href)) := by
  have h1 : entrySliceWithFallback dc spine (entries.get ⟨i, hi⟩)
      (entries.get? (i + 1)) = dictGet dc (entries.get ⟨i, hi⟩).doc_href := by
    simp only [entrySliceWithFallback]
    split
    · rfl
    · rename_i hcond
      refine absurd ?_ hcond
      simp only [Bool.and_eq_true, decide_eq_true_eq]
      exact ⟨hblank, hdoc⟩
  refine ⟨h1, ?_⟩
  unfold navEntryTexts
  rw [List.get?_map, List.get?_range hi]
  simp only [Option.map_some', List.get?_eq_get hi, h1]

/-- C9 (witness): an entry anchored at the very end of its document has a
blank raw slice, and the stored text is produced from the whole document
markup. -/
theorem empty_slice_falls_back_to_full_document_witness :
    entrySliceWithFallback dcOneDoc ["a.html".data] navEntryEx none
        = "<p>Hi</p>".data ∧
    (navEntryTexts (fun s => s) dcOneDoc ["a.html".data] [navEntryEx]).get? 0
        = some ("a.html#x".data, "<p>Hi</p>".data) := by
  have h := empty_slice_falls_back_to_full_document (fun s => s) dcOneDoc
    ["a.html".data] [navEntryEx] 0 (by decide) (by decide) (by decide)
  exact ⟨h.1.trans (by decide), h.2.trans (by decide)⟩

/-- Helper: `ChapterLinksOk` splits over list concatenation. -/
theorem chapterLinksOk_append (seen : List Str) (l1 l2 : List Chapter) :
    ChapterLinksOk seen (l1 ++ l2) ↔
      ChapterLinksOk seen l1 ∧
        ChapterLinksOk (seen ++ l1.map Chapter.id) l2 := by
  induction l1 generalizing seen with
  | nil => simp [ChapterLinksOk]
  | cons c rest ih =>
    simp [ChapterLinksOk, ih (seen ++ [c.id]), and_assoc, List.append_assoc]

/-- Helper: the builder extends its accumulator with chapters whose
levels are at least the entry level and whose parent ids are already
seen. -/
theorem buildChaptersFromNav_ok (nav : List NavNode) (acc : List Chapter)
    (pid : Option Str) (lvl : Nat) (it : Bool) (ct : List (Str × Str))
    (cl : List (Str × Nat)) :
    1 ≤ lvl → (∀ p, pid = some p → p ∈ acc.map Chapter.id) →
    ∃ t, buildChaptersFromNav nav acc pid lvl it ct cl = acc ++ t ∧
      ChapterLinksOk (acc.map Chapter.id) t := by
  induction nav, acc, pid, lvl, it, ct, cl using buildChaptersFromNav.induct with
  | case1 acc pid lvl it ct cl =>
    intro _ _
    exact ⟨[], by rw [buildChaptersFromNav]; simp, trivial⟩
  | case2 acc pid lvl it ct cl src title children rest cid chap chaps1 chaps2 ihc ihc2 ihr =>
    intro hlvl hpid
    rw [buildChaptersFromNav]
    show ∃ t, buildChaptersFromNav rest chaps2 pid lvl it ct cl = acc ++ t ∧
      ChapterLinksOk (List.map Chapter.id acc) t
    have hchapid : chap.id = cid := rfl
    have hmapchaps1 : List.map Chapter.id chaps1
        = List.map Chapter.id acc ++ [chap.id] := by
      show List.map Chapter.id (acc ++ [chap]) = _
      simp
    have hmemcid : cid ∈ List.map Chapter.id chaps1 := by
      rw [hmapchaps1, hchapid]
      exact List.mem_append_right _ (List.mem_singleton.mpr rfl)
    by_cases hch : children.isEmpty = true
    · have hch2 : chaps2 = chaps1 := if_pos hch
      obtain ⟨t2, hrest, hokrest⟩ := ihr hlvl (by
        intro p hp
        rw [hch2, hmapchaps1]
        exact List.mem_append_left _ (hpid p hp))
      refine ⟨chap :: t2, ?_, ?_⟩
      · rw [hrest, hch2]
        show (acc ++ [chap]) ++ t2 = acc ++ (chap :: t2)
        simp
      · refine ⟨⟨hlvl, fun p hp => hpid p hp⟩, ?_⟩
        rw [hch2, hmapchaps1] at hokrest
        exact hokrest
    · obtain ⟨t1, hchild, hokchild⟩ := ihc (by omega) (by
        intro p hp
        cases hp
        exact hmemcid)
      have hch2 : chaps2 = chaps1 ++ t1 := (if_neg hch).trans hchild
      obtain ⟨t2, hrest, hokrest⟩ := ihr hlvl (by
        intro p hp
        rw [hch2, List.map_append, hmapchaps1]
        exact List.mem_append_left _ (List.mem_append_left _ (hpid p hp)))
      refine ⟨chap :: (t1 ++ t2), ?_, ?_⟩
      · rw [hrest, hch2]
        show ((acc ++ [chap]) ++ t1) ++ t2 = acc ++ (chap :: (t1 ++ t2))
        simp
      · refine ⟨⟨hlvl, fun p hp => hpid p hp⟩, ?_⟩
        rw [chapterLinksOk_append]
        constructor
        · rw [hmapchaps1] at hokchild
          exact hokchild
        · rw [hch2, List.map_append, hmapchaps1] at hokrest
          exact hokrest

/-- Helper: `ChapterLinksOk` yields the positional invariant: every
chapter's parent id is either among the initially seen ids or the id of
an earlier chapter of the list. -/
theorem chapterLinksOk_get (l : List Chapter) (seen : List Str)
    (hok : ChapterLinksOk seen l) :
    ∀ i c, l.get? i = some c →
      1 ≤ c.level ∧
      ∀ p, c.parent_id = some p →
        p ∈ seen ∨ ∃ j c2, j < i ∧ l.get? j = some c2 ∧ c2.id = p := by
  induction l generalizing seen with
  | nil =>
    intro i c hc
    simp [List.get?] at hc
  | cons c0 rest ih =>
    intro i c hc
    match i with
    | 0 =>
      have hc0 : c = c0 := by simpa using hc.symm
      subst hc0
      exact ⟨hok.1.1, fun p hp => Or.inl (hok.1.2 p hp)⟩
    | Nat.succ j =>
      have hc' : rest.get? j = some c := by simpa using hc
      have h := ih (seen ++ [c0.id]) hok.2 j c hc'
      refine ⟨h.1, fun p hp => ?_⟩
      rcases h.2 p hp with hseen | ⟨j2, c2, hlt, hget, hid⟩
      · rcases List.mem_append.mp hseen with hs | hs
        · exact Or.inl hs
        · refine Or.inr ⟨0, c0, by omega, by simp, ?_⟩
          have : p = c0.id := by simpa using hs
          exact this.symm
      · exact Or.inr ⟨j2 + 1, c2, by omega, by simpa using hget, hid⟩

/-- C6: every chapter produced by `get_chapters` has level at least 1,
and every chapter with a non-null parent id has that id appear as the id
of an earlier chapter in the same list. -/
theorem chapters_level_and_parent_invariant
    (nav : List NavNode) (it : Bool) (ct : List (Str × Str))
    (cl : List (Str × Nat)) :
    ∀ i c, (getChapters nav it ct cl).get? i = some c →
      1 ≤ c.level ∧
      ∀ p, c.parent_id = some p →
        ∃ j c2, j < i ∧ (getChapters nav it ct cl).get? j = some c2 ∧ c2.id = p := by
  obtain ⟨t, heq, hok⟩ := buildChaptersFromNav_ok nav [] none 1 it ct cl
    (by omega) (by intro p hp; cases hp)
  have hL : getChapters nav it ct cl = t := by
    unfold getChapters
    simpa using heq
  intro i c hc
  have h := chapterLinksOk_get t [] (by simpa using hok) i c (by rw [← hL]; exact hc)
  refine ⟨h.1, fun p hp => ?_⟩
  rcases h.2 p hp with hseen | ⟨j, c2, hlt, hget, hid⟩
  · exact absurd hseen (List.not_mem_nil p)
  · exact ⟨j, c2, hlt, by rw [hL]; exact hget, hid⟩

/-- C6 (witness): in the two-level fixture tree, the child chapter's
parent id `"a"` is the id of the earlier root chapter. -/
theorem chapters_level_and_parent_invariant_witness :
    ∃ j c2, j < 1 ∧ (getChapters navTreeEx true [] []).get? j = some c2 ∧
      c2.id = ['a'] := by
  have hL : getChapters navTreeEx true [] []
      = [⟨['a'], ['A'], [], 0, none, 1⟩,
         ⟨['a', '#', 's', '1'], ['B'], [], 0, some ['a'], 2⟩] := by
    simp [getChapters, buildChaptersFromNav, navTreeEx, navChapterId,
      navChapterText, navChapterCount, dictGet, dictGetNat]
  have h := chapters_level_and_parent_invariant navTreeEx true [] [] 1
    ⟨['a', '#', 's', '1'], ['B'], [], 0, some ['a'], 2⟩ (by rw [hL]; rfl)
  exact h.2 ['a'] rfl

/-- Helper: the sort-key order is total. -/
theorem keyLE_total (a b : Nat × Nat) : keyLE a b ∨ keyLE b a := by
  unfold keyLE
  omega

/-- Helper: the sort-key order is transitive. -/
theorem keyLE_trans (a b c : Nat × Nat) (h1 : keyLE a b) (h2 : keyLE b c) :
    keyLE a c := by
  unfold keyLE at *
  omega

/-- Helper: `sortByKey` permutes its input. -/
theorem sortByKey_perm {α : Type} (k : α → Nat × Nat) (l : List α) :
    (sortByKey k l).Perm l := by
  unfold sortByKey
  exact List.perm_insertionSort _ l

/-- Helper: `sortByKey` sorts by the key order. -/
theorem sortByKey_sorted {α : Type} (k : α → Nat × Nat) (l : List α) :
    List.Sorted (fun a b => keyLE (k a) (k b)) (sortByKey k l) := by
  unfold sortByKey
  have htot : IsTotal α (fun a b => keyLE (k a) (k b)) :=
    ⟨fun a b => keyLE_total (k a) (k b)⟩
  have htr : IsTrans α (fun a b => keyLE (k a) (k b)) :=
    ⟨fun a b c => keyLE_trans (k a) (k b) (k c)⟩
  exact @List.sorted_insertionSort α (fun a b => keyLE (k a) (k b))
    (fun a b => keyLEDec (k a) (k b)) htot htr l

/-- Helper: a successful association-list lookup comes from a member
pair. -/
theorem lookup_mem {β : Type} (pairs : List (Str × β)) (k : Str) (v : β)
    (h : List.lookup k pairs = some v) : (k, v) ∈ pairs := by
  induction pairs with
  | nil => simp [List.lookup] at h
  | cons kv rest ih =>
    rcases kv with ⟨a, b⟩
    rw [List.lookup] at h
    by_cases hk : k == a
    · rw [show (k == a) = true from hk] at h
      simp at h
      subst h
      have hka : k = a := eq_of_beq hk
      subst hka
      exact List.mem_cons_self _ _
    · rw [show (k == a) = false from by simpa using hk] at h
      exact List.mem_cons_of_mem _ (ih h)

/-- Helper: values of `spinePairs` are positions in the spine. -/
theorem mem_spinePairs_lt (spine : List Str) (k : Str) (v : Nat)
    (h : (k, v) ∈ spinePairs spine) : v < spine.length := by
  unfold spinePairs at h
  rcases List.mem_map.mp h with ⟨p, hp, heq⟩
  rcases p with ⟨i, x⟩
  have := List.mem_enum hp
  cases heq
  exact this.1

/-- Helper: values of `decodedPairs` are positions in the spine. -/
theorem mem_decodedPairs_lt (unquote : Str → Str) (spine : List Str) (k : Str)
    (v : Nat) (h : (k, v) ∈ decodedPairs unquote spine) : v < spine.length := by
  unfold decodedPairs at h
  rcases List.mem_map.mp h with ⟨q, hq, heq⟩
  cases heq
  exact mem_spinePairs_lt spine q.1 q.2 hq

/-- Helper: a successful `findDocKey` returns a spine index. -/
theorem findDocKey_lt (unquote : Str → Str) (baseHref : Str) (spine : List Str)
    (k : Str) (i : Nat)
    (h : findDocKey unquote baseHref (spinePairs spine) (decodedPairs unquote spine)
      = some (k, i)) : i < spine.length := by
  unfold findDocKey at h
  generalize hc : ([baseHref, unquote baseHref] ++
    (((spinePairs spine).map Prod.fst ++ (decodedPairs unquote spine).map Prod.fst).filter
      (fun x => basenameLower x == basenameLower baseHref))) = cands at h
  clear hc
  induction cands with
  | nil => simp [findDocKeyAux] at h
  | cons c cs ih =>
    rw [findDocKeyAux] at h
    cases h1 : List.lookup c (spinePairs spine) with
    | some v =>
      rw [h1] at h
      simp at h
      rcases h with ⟨hk, hv⟩
      subst hk hv
      exact mem_spinePairs_lt spine c v (lookup_mem _ _ _ h1)
    | none =>
      rw [h1] at h
      cases h2 : List.lookup c (decodedPairs unquote spine) with
      | some v =>
        rw [h2] at h
        simp at h
        rcases h with ⟨hk, hv⟩
        subst hk hv
        exact mem_decodedPairs_lt unquote spine c v (lookup_mem _ _ _ h2)
      | none =>
        rw [h2] at h
        exact ih h

/-- Helper: each built page carries the page number of the sorted entry
at the same index. -/
theorem pages_get_number (clean : Str → Str) (calcLen : Str → Nat)
    (dc : List (Str × Str)) (soupFind : Str → Str → Option Str)
    (unquote : Str → Str) (spine : List Str) (chapters : List Chapter)
    (entries : List PageEntry) (idx : Nat) (ri : ResolvedPageEntry)
    (hidx : (sortedPageEntries dc soupFind unquote spine entries).get? idx = some ri) :
    ∃ pg, (getEpubPageListPages clean calcLen dc soupFind unquote spine chapters
        entries).get? idx = some pg ∧ pg.page_number = ri.page_number := by
  have hlt : idx < (sortedPageEntries dc soupFind unquote spine entries).length :=
    (List.get?_eq_some.mp hidx).1
  refine ⟨pageAtIndex clean calcLen dc soupFind unquote spine chapters entries idx,
    ?_, ?_⟩
  · unfold getEpubPageListPages
    rw [List.get?_map, List.get?_range hlt]
    rfl
  · unfold pageAtIndex
    dsimp only
    rw [hidx]

/-- C10: a page-list entry whose document cannot be matched to any spine
document is not dropped: it is resolved with sentinel document order
999999 and position 0, every resolved entry still yields one `Page`, all
resolvable entries get a document order below the sentinel, and sorted
entries with the sentinel order come after every entry with a smaller
order. -/
theorem unmatched_page_entry_sentinel_kept
    (clean : Str → Str) (calcLen : Str → Nat) (dc : List (Str × Str))
    (soupFind : Str → Str → Option Str) (unquote : Str → Str)
    (spine : List Str) (chapters : List Chapter) (entries : List PageEntry)
    (e : PageEntry)
    (he : e ∈ entries)
    (hnone : findDocKey unquote (pySplit1 '#' e.src).1 (spinePairs spine)
      (decodedPairs unquote spine) = none)
    (hspine : spine.length ≤ 999999) :
    (resolvePageEntry dc soupFind unquote (spinePairs spine)
        (decodedPairs unquote spine) e).doc_order = 999999 ∧
    (resolvePageEntry dc soupFind unquote (spinePairs spine)
        (decodedPairs unquote spine) e).position = 0 ∧
    (getEpubPageListPages clean calcLen dc soupFind unquote spine chapters
        entries).length = entries.length ∧
    (∃ pg ∈ getEpubPageListPages clean calcLen dc soupFind unquote spine chapters
        entries, pg.page_number = e.page_number) ∧
    (∀ e2 ∈ entries, ∀ k i,
        findDocKey unquote (pySplit1 '#' e2.src).1 (spinePairs spine)
          (decodedPairs unquote spine) = some (k, i) →
        (resolvePageEntry dc soupFind unquote (spinePairs spine)
          (decodedPairs unquote spine) e2).doc_order < 999999) ∧
    (∀ i j ri rj,
        (sortedPageEntries dc soupFind unquote spine entries).get? i = some ri →
        (sortedPageEntries dc soupFind unquote spine entries).get? j = some rj →
        ri.doc_order = 999999 → rj.doc_order < 999999 → j < i) := by
  have hres : resolvePageEntry dc soupFind unquote (spinePairs spine)
      (decodedPairs unquote spine) e
      = ⟨e.page_number, e.src, (pySplit1 '#' e.src).1, 999999, 0⟩ := by
    unfold resolvePageEntry
    dsimp only
    rw [hnone]
  have hsortlen : (sortedPageEntries dc soupFind unquote spine entries).length
      = entries.length := by
    unfold sortedPageEntries sortPageEntries
    rw [(sortByKey_perm pageEntryKey _).length_eq]
    unfold resolvedPageEntries
    exact List.length_map _ _
  refine ⟨by rw [hres], by rw [hres], ?_, ?_, ?_, ?_⟩
  · unfold getEpubPageListPages
    simp [hsortlen]
  · have hmemres : resolvePageEntry dc soupFind unquote (spinePairs spine)
        (decodedPairs unquote spine) e
        ∈ resolvedPageEntries dc soupFind unquote spine entries := by
      unfold resolvedPageEntries
      exact List.mem_map_of_mem _ he
    have hmemsorted : resolvePageEntry dc soupFind unquote (spinePairs spine)
        (decodedPairs unquote spine) e
        ∈ sortedPageEntries dc soupFind unquote spine entries := by
      unfold sortedPageEntries sortPageEntries
      exact ((sortByKey_perm pageEntryKey _).mem_iff).mpr hmemres
    obtain ⟨idx, hidx⟩ := List.get?_of_mem hmemsorted
    obtain ⟨pg, hpg, hnum⟩ := pages_get_number clean calcLen dc soupFind unquote
      spine chapters entries idx _ hidx
    refine ⟨pg, List.get?_mem hpg, ?_⟩
    rw [hnum, hres]
  · intro e2 _ k i hsome
    unfold resolvePageEntry
    dsimp only
    rw [hsome]
    show i < 999999
    have := findDocKey_lt unquote _ spine k i hsome
    omega
  · intro i j ri rj hi hj hri hrj
    by_contra hcon
    push_neg at hcon
    have hij : i ≠ j := by
      intro hEq
      subst hEq
      rw [hi] at hj
      injection hj with hh
      subst hh
      omega
    have hilt : i < j := by omega
    have hs : List.Sorted (fun a b => keyLE (pageEntryKey a) (pageEntryKey b))
        (sortedPageEntries dc soupFind unquote spine entries) :=
      sortByKey_sorted pageEntryKey _
    obtain ⟨hli, hgi⟩ := List.get?_eq_some.mp hi
    obtain ⟨hlj, hgj⟩ := List.get?_eq_some.mp hj
    have hrel := List.pairwise_iff_get.mp hs ⟨i, hli⟩ ⟨j, hlj⟩ (Fin.mk_lt_mk.mpr hilt)
    rw [hgi, hgj] at hrel
    unfold keyLE pageEntryKey at hrel
    omega

/-- C10 (witness): in a concrete page list whose first entry points at a
document absent from the spine, that entry still yields a `Page` with its
original page number. -/
theorem unmatched_page_entry_sentinel_kept_witness :
    ∃ pg ∈ getEpubPageListPages (fun s => s) List.length
        [("a.html".data, "<p id=\"p1\">x</p>".data)] (fun _ _ => none) (fun s => s)
        ["a.html".data] [] pageEntriesEx, pg.page_number = "9".data :=
  (unmatched_page_entry_sentinel_kept (fun s => s) List.length
    [("a.html".data, "<p id=\"p1\">x</p>".data)] (fun _ _ => none) (fun s => s)
    ["a.html".data] [] pageEntriesEx ⟨"9".data, "zzz.html#p9".data⟩
    (by decide) (by decide) (by decide)).2.2.2.1
